import Mathlib

/-!
Verification of the console-slog line-rendering engine.

The Go sources verified here are `encoding.go` (the attribute/header/level
encoder), `handler.go` (format compiler `parseFormat`, the `Handle`
instruction interpreter, and the `WithAttrs`/`WithGroup` decorator chain)
and `theme.go`.  Buffers are byte sequences; we model a byte as a `Char`
(all inputs of interest are single-byte characters, and the Go code indexes
raw bytes).  The repository's `buffer.go` is not part of the sources; its
operations (`AppendByte`, `AppendString`, `Truncate`, `Pad`, `Len`) are
modelled from their call sites and from the specification's description of
the buffer component ("an append-only byte sequence with typed-append
helpers and truncate/pad operations").
-/

namespace ConsoleSlog

/-- A byte buffer, as used throughout `encoding.go` / `handler.go`. -/
abbrev Buffer := List Char

/-- `buffer.AppendByte`. -/
def Buffer.appendByte (b : Buffer) (c : Char) : Buffer := b ++ [c]

/-- `buffer.AppendString`. -/
def Buffer.appendString (b : Buffer) (s : List Char) : Buffer := b ++ s

/-- `buffer.Truncate(n)`: keep the first `n` bytes. -/
def Buffer.truncate (b : Buffer) (n : Nat) : Buffer := b.take n

/-- `buffer.Pad(amount, c)`: append `amount` copies of `c`
(modelled from the call sites in `writeHeader`). -/
def Buffer.pad (b : Buffer) (amount : Nat) (c : Char) : Buffer :=
  b ++ List.replicate amount c

/-- `unicode.IsSpace` restricted to the ASCII range, as used by
`bytes.TrimSpace` on the byte strings this handler produces. -/
def goIsSpace (c : Char) : Bool :=
  c = ' ' || c = '\t' || c = '\n' || c = '\x0b' || c = '\x0c' || c = '\r'

/-- `bytes.TrimSpace`: drop leading and trailing whitespace. -/
def trimSpace (b : Buffer) : Buffer :=
  ((b.dropWhile goIsSpace).reverse.dropWhile goIsSpace).reverse

/-- An ANSI style code (`ANSIMod` in `theme.go`); the empty string means
"no style". -/
abbrev ANSIMod := List Char

/-- `ResetMod` rendered bytes (theme.go: `ToANSICode(Reset)` = ESC `[0m`). -/
def ResetMod : ANSIMod := '\x1b' :: '[' :: '0' :: 'm' :: []

/-- `encoder.withColor` (encoding.go): bracket `inner`'s output with the
style code and the reset code, unless the style is empty or colour is
disabled. -/
def withColor (noColor : Bool) (c : ANSIMod) (b : Buffer) (inner : Buffer → Buffer) : Buffer :=
  if c = [] || noColor then inner b
  else (inner (b ++ c)) ++ ResetMod

mutual

/-- The slog attribute values the encoder distinguishes, restricted to the
kinds exercised by the claims (string values, and groups for the attribute
walk).  `empty` is the zero `slog.Value`.  A group's children are a keyed
list (`AttrList`), mutually inductive so the attribute walk can recurse
structurally. -/
inductive Value where
  | empty : Value
  | str : List Char → Value
  | group : AttrList → Value

/-- The children of a group value: a list of key/value pairs. -/
inductive AttrList where
  | anil : AttrList
  | acons : List Char → Value → AttrList → AttrList

end

deriving instance DecidableEq for Value, AttrList

/-- A `slog.Attr`: key and value.  The empty attribute is `⟨[], .empty⟩`. -/
structure Attr where
  key : List Char
  val : Value
deriving DecidableEq

/-- `slog.Attr{}` — the empty attribute. -/
def Attr.emptyAttr : Attr := ⟨[], Value.empty⟩

/-- `a.Value.Equal(slog.Value{})`: is this the zero value? -/
def Value.isEmptyVal : Value → Bool
  | Value.empty => true
  | _ => false

/-- `a.Equal(slog.Attr{})`: empty key and zero value. -/
def Attr.isEmpty (a : Attr) : Bool :=
  a.key = ([] : List Char) && a.val.isEmptyVal

/-- `a.Value.Kind() != slog.KindGroup`. -/
def Value.isGroup : Value → Bool
  | Value.group _ => true
  | _ => false

/-- `encoder.writeValue` restricted to the modelled kinds: a string value
appends its text, the empty value appends the empty string
(`slog.Value{}.String()` is empty), and a group appends nothing here
(groups never reach `writeValue` on the paths we verify). -/
def writeValue (b : Buffer) : Value → Buffer
  | Value.empty => b
  | Value.str s => b ++ s
  | Value.group _ => b

/-- The copy loop of `writeHeader`'s right-alignment
(`for i := 0; i < textLen; i++ { (*buf)[buf.Len()-1-i] = (*buf)[l+textLen-1-i] }`),
after `i` iterations.  Go executes iterations `0,1,…` in order; iteration
`i` is performed last here, matching that order. -/
def copyTextRight (b : Buffer) (l textLen : Nat) : Nat → Buffer
  | 0 => b
  | i + 1 =>
      let b' := copyTextRight b l textLen i
      b'.set (b'.length - 1 - i) (b'.getD (l + textLen - 1 - i) ' ')

/-- The fill loop of `writeHeader`'s right-alignment
(`for i := 0; i < remainingWidth; i++ { (*buf)[l+i] = ' ' }`),
after `i` iterations. -/
def fillLeft (b : Buffer) (l : Nat) : Nat → Buffer
  | 0 => b
  | i + 1 => (fillLeft b l i).set (l + i) ' '

/-- The `ReplaceAttr` call at the top of `writeHeader`
(`if a.Value.Kind() != slog.KindGroup && e.h.opts.ReplaceAttr != nil`);
value resolution is the identity on the modelled kinds. -/
def applyHeaderReplace (replaceAttr : Option (Attr → Attr)) (a : Attr) : Attr :=
  if ¬ a.val.isGroup then
    (match replaceAttr with
     | some f => f a
     | none => a)
  else a

/-- The body of the closure passed to `withColor` inside `writeHeader`:
write the value, then truncate or pad/shift to the fixed width. -/
def writeHeaderInner (v : Value) (width : Nat) (rightAlign : Bool) (buf : Buffer) : Buffer :=
  let l := buf.length
  let buf := writeValue buf v
  if width = 0 then buf
  else if l + width < buf.length then
    -- remainingWidth < 0: truncate
    Buffer.truncate buf (l + width)
  else if buf.length < l + width then
    -- remainingWidth > 0
    let remainingWidth := l + width - buf.length
    if rightAlign then
      let textLen := buf.length - l
      let buf := Buffer.pad buf remainingWidth ' '
      let buf := copyTextRight buf l textLen textLen
      fillLeft buf l remainingWidth
    else
      Buffer.pad buf remainingWidth ' '
  else buf

/-- `encoder.writeHeader` (encoding.go, lines 177-222).  `replaceAttr`
models `e.h.opts.ReplaceAttr` (called with a nil group list).  `width` is
the parsed header width (never negative, so `width <= 0` becomes
`width = 0`). -/
def writeHeader (noColor : Bool) (replaceAttr : Option (Attr → Attr)) (style : ANSIMod)
    (b : Buffer) (a : Attr) (width : Nat) (rightAlign : Bool) : Buffer :=
  let a := applyHeaderReplace replaceAttr a
  if a.val.isEmptyVal then
    -- just pad as needed
    if width > 0 then Buffer.pad b width ' ' else b
  else
    withColor noColor style b (writeHeaderInner a.val width rightAlign)

/-- The rendered text of a value (what `writeValue` appends). -/
def valueText (v : Value) : List Char := writeValue [] v

/-- The fixed-width fitting rule as the claim states it: truncate to `w`
bytes when longer, otherwise pad with spaces on the right (left-aligned)
or on the left (right-aligned). -/
def fitToWidth (t : List Char) (w : Nat) (rightAlign : Bool) : List Char :=
  if w ≤ t.length then t.take w
  else if rightAlign then List.replicate (w - t.length) ' ' ++ t
  else t ++ List.replicate (w - t.length) ' '

/-- `headerContribution`: the bytes the header slot appends after the
prior buffer contents, stated from the claim: style bytes (when colour is
on) around a value fitted to the width, or bare spaces for an absent
value. -/
def headerContribution (noColor : Bool) (style : ANSIMod) (a : Attr) (w : Nat)
    (rightAlign : Bool) : List Char :=
  if a.val.isEmptyVal then List.replicate w ' '
  else if style = [] || noColor then fitToWidth (valueText a.val) w rightAlign
  else style ++ fitToWidth (valueText a.val) w rightAlign ++ ResetMod

theorem fillLeft_spec (r : Nat) : ∀ (b : Buffer) (l : Nat), l + r ≤ b.length →
    fillLeft b l r = b.take l ++ List.replicate r ' ' ++ b.drop (l + r) := by
  induction r with
  | zero => intro b l h; simp [fillLeft]
  | succ r ih =>
      intro b l h
      have hx : fillLeft b l (r + 1) = (fillLeft b l r).set (l + r) ' ' := rfl
      rw [hx, ih b l (by omega)]
      have hlen : (b.take l ++ (List.replicate r ' ' ++ b.drop (l + r))).length = b.length := by
        simp; omega
      rw [List.append_assoc]
      rw [List.set_eq_take_cons_drop _ (by rw [hlen]; omega)]
      have h1 : (b.take l).length = l := by simp; omega
      have htake : (b.take l ++ (List.replicate r ' ' ++ b.drop (l + r))).take (l + r)
          = b.take l ++ List.replicate r ' ' := by
        rw [List.take_append_eq_append_take, h1, List.take_append_eq_append_take]
        simp
      have hnil : (b.take l).drop (l + r + 1) = [] :=
        List.drop_eq_nil_of_le (by omega)
      have hdrop : (b.take l ++ (List.replicate r ' ' ++ b.drop (l + r))).drop (l + r + 1)
          = b.drop (l + (r + 1)) := by
        rw [List.drop_append_eq_append_drop, h1, List.drop_append_eq_append_drop, hnil]
        have h2 : l + r + 1 - l = r + 1 := by omega
        rw [h2]
        have h4 : List.drop (r + 1) (List.replicate r (' ' : Char)) = [] :=
          List.drop_eq_nil_of_le (by simp)
        rw [h4]
        simp [List.drop_drop]
        rfl
      rw [htake, hdrop, List.append_assoc, List.append_assoc]
      congr 1
      rw [List.replicate_succ' r ' ']
      simp

theorem copyTextRight_spec (p t pad : Buffer) (hpad : 0 < pad.length) :
    ∀ i, i ≤ t.length →
    copyTextRight (p ++ t ++ pad) p.length t.length i
      = (p ++ t ++ pad).take (p.length + t.length + pad.length - i)
          ++ t.drop (t.length - i) := by
  intro i
  induction i with
  | zero =>
      intro _
      have h1 : (p ++ t ++ pad).take (p.length + t.length + pad.length - 0)
          = p ++ t ++ pad := List.take_of_length_le (by simp; omega)
      simp [copyTextRight, h1]
      omega
  | succ i ih =>
      intro h
      have hi : i ≤ t.length := by omega
      have hstep : copyTextRight (p ++ t ++ pad) p.length t.length (i + 1)
          = (copyTextRight (p ++ t ++ pad) p.length t.length i).set
              ((copyTextRight (p ++ t ++ pad) p.length t.length i).length - 1 - i)
              ((copyTextRight (p ++ t ++ pad) p.length t.length i).getD
                (p.length + t.length - 1 - i) ' ') := rfl
      rw [hstep, ih hi]
      have hXlen : (p ++ t ++ pad).length = p.length + t.length + pad.length := by
        simp; omega
      have hAlen : ((p ++ t ++ pad).take (p.length + t.length + pad.length - i)).length
          = p.length + t.length + pad.length - i := by
        rw [List.length_take, hXlen]; omega
      have hBlen : (t.drop (t.length - i)).length = i := by
        rw [List.length_drop]; omega
      have hlen : ((p ++ t ++ pad).take (p.length + t.length + pad.length - i)
          ++ t.drop (t.length - i)).length = p.length + t.length + pad.length := by
        rw [List.length_append, hAlen, hBlen]; omega
      rw [hlen]
      have htidx : t.length - 1 - i < t.length := by omega
      have hjA : p.length + t.length - 1 - i
          < ((p ++ t ++ pad).take (p.length + t.length + pad.length - i)).length := by
        rw [hAlen]; omega
      have hjb : p.length + t.length - 1 - i
          < ((p ++ t ++ pad).take (p.length + t.length + pad.length - i)
              ++ t.drop (t.length - i)).length := by
        rw [hlen]; omega
      have hjpt : p.length + t.length - 1 - i < (p ++ t).length := by
        rw [List.length_append]; omega
      have hple : p.length ≤ p.length + t.length - 1 - i := by omega
      have hval : ((p ++ t ++ pad).take (p.length + t.length + pad.length - i)
            ++ t.drop (t.length - i)).getD (p.length + t.length - 1 - i) ' '
          = t.get ⟨t.length - 1 - i, htidx⟩ := by
        rw [List.getD_eq_getElem _ _ hjb]
        rw [List.getElem_append_left hjA]
        rw [List.getElem_take]
        rw [List.getElem_append_left hjpt]
        rw [List.getElem_append_right hple]
        have e3 : p.length + t.length - 1 - i - p.length = t.length - 1 - i := by omega
        simp only [e3, List.get_eq_getElem]
      rw [hval]
      have hm : p.length + t.length + pad.length - 1 - i
          < ((p ++ t ++ pad).take (p.length + t.length + pad.length - i)).length := by
        rw [hAlen]; omega
      rw [List.set_append, if_pos hm]
      rw [List.set_eq_take_cons_drop _ hm]
      have ht1 : ((p ++ t ++ pad).take (p.length + t.length + pad.length - i)).take
            (p.length + t.length + pad.length - 1 - i)
          = (p ++ t ++ pad).take (p.length + t.length + pad.length - (i + 1)) := by
        rw [List.take_take]
        congr 1
        omega
      have ht2 : ((p ++ t ++ pad).take (p.length + t.length + pad.length - i)).drop
            (p.length + t.length + pad.length - 1 - i + 1) = [] :=
        List.drop_eq_nil_of_le (by rw [hAlen]; omega)
      rw [ht1, ht2]
      have e1 : t.length - (i + 1) = t.length - 1 - i := by omega
      have ht3 : t.drop (t.length - (i + 1))
          = t.get ⟨t.length - 1 - i, htidx⟩ :: t.drop (t.length - i) := by
        rw [e1, List.drop_eq_getElem_cons htidx]
        have e2 : t.length - 1 - i + 1 = t.length - i := by omega
        rw [e2]
        simp [List.get_eq_getElem]
      rw [ht3]
      simp

theorem fitToWidth_length (t : List Char) (w : Nat) (rightAlign : Bool) :
    (fitToWidth t w rightAlign).length = w := by
  unfold fitToWidth
  by_cases h : w ≤ t.length
  · rw [if_pos h]; simp; omega
  · rw [if_neg h]
    cases rightAlign <;> simp <;> omega

/-- `writeValue` appends the value's text. -/
theorem writeValue_eq_append (b : Buffer) (v : Value) :
    writeValue b v = b ++ valueText v := by
  cases v <;> simp [writeValue, valueText]

/-- The alignment closure appends exactly the width-fitted value text. -/
theorem writeHeaderInner_spec (v : Value) (w : Nat) (hw : 0 < w) (rightAlign : Bool)
    (base : Buffer) :
    writeHeaderInner v w rightAlign base = base ++ fitToWidth (valueText v) w rightAlign := by
  unfold writeHeaderInner
  rw [writeValue_eq_append]
  have hw0 : ¬ w = 0 := by omega
  rw [if_neg hw0]
  by_cases htr : base.length + w < (base ++ valueText v).length
  · -- remainingWidth < 0: truncate; value text longer than the width
    rw [if_pos htr]
    have hlt : w < (valueText v).length := by
      rw [List.length_append] at htr; omega
    unfold Buffer.truncate fitToWidth
    rw [if_pos (by omega : w ≤ (valueText v).length)]
    rw [List.take_append_eq_append_take]
    rw [List.take_of_length_le (by omega)]
    congr 2
    omega
  · rw [if_neg htr]
    by_cases hpad : (base ++ valueText v).length < base.length + w
    · rw [if_pos hpad]
      have hlt : (valueText v).length < w := by
        rw [List.length_append] at hpad; omega
      have hr : base.length + w - (base ++ valueText v).length
          = w - (valueText v).length := by
        rw [List.length_append]; omega
      have htl : (base ++ valueText v).length - base.length = (valueText v).length := by
        rw [List.length_append]; omega
      have hfit : fitToWidth (valueText v) w rightAlign
          = if rightAlign then List.replicate (w - (valueText v).length) ' ' ++ valueText v
            else valueText v ++ List.replicate (w - (valueText v).length) ' ' := by
        unfold fitToWidth
        rw [if_neg (by omega : ¬ w ≤ (valueText v).length)]
      cases rightAlign with
      | false =>
          simp only [Bool.false_eq_true, if_false] at hfit ⊢
          rw [hr, hfit]
          unfold Buffer.pad
          rw [List.append_assoc]
      | true =>
          simp only [if_true] at hfit ⊢
          rw [hr, htl, hfit]
          unfold Buffer.pad
          have hcopy := copyTextRight_spec base (valueText v)
            (List.replicate (w - (valueText v).length) ' ')
            (by simp; omega) (valueText v).length (le_refl _)
          rw [hcopy]
          have hidx : base.length + (valueText v).length
              + (List.replicate (w - (valueText v).length) (' ' : Char)).length
              - (valueText v).length = base.length + (w - (valueText v).length) := by
            simp; omega
          rw [hidx, Nat.sub_self, List.drop_zero]
          have hXlen : (base ++ valueText v ++
              List.replicate (w - (valueText v).length) (' ' : Char)).length
              = base.length + (valueText v).length + (w - (valueText v).length) := by
            simp; omega
          have hfill := fillLeft_spec (w - (valueText v).length)
            ((base ++ valueText v ++ List.replicate (w - (valueText v).length) ' ').take
                (base.length + (w - (valueText v).length)) ++ valueText v)
            base.length
            (by
              rw [List.length_append, List.length_take, hXlen]
              omega)
          rw [hfill]
          have hAlen : ((base ++ valueText v ++
              List.replicate (w - (valueText v).length) (' ' : Char)).take
              (base.length + (w - (valueText v).length))).length
              = base.length + (w - (valueText v).length) := by
            rw [List.length_take, hXlen]; omega
          have htk : (((base ++ valueText v ++
              List.replicate (w - (valueText v).length) ' ').take
              (base.length + (w - (valueText v).length)) ++ valueText v)).take base.length
              = base := by
            rw [List.take_append_of_le_length (by rw [hAlen]; omega)]
            rw [List.take_take, min_eq_left (Nat.le_add_right _ _)]
            rw [List.append_assoc]
            exact List.take_left' rfl
          have hdr : (((base ++ valueText v ++
              List.replicate (w - (valueText v).length) ' ').take
              (base.length + (w - (valueText v).length)) ++ valueText v)).drop
              (base.length + (w - (valueText v).length))
              = valueText v :=
            List.drop_left' hAlen
          rw [htk, hdr]
          rw [List.append_assoc]
    · -- remainingWidth = 0: value text exactly the width
      rw [if_neg hpad]
      have heq : (valueText v).length = w := by
        rw [List.length_append] at htr hpad; omega
      unfold fitToWidth
      rw [if_pos (by omega : w ≤ (valueText v).length)]
      rw [List.take_of_length_le (by omega)]

end ConsoleSlog

namespace ConsoleSlog

/-- Claim C1: for every header slot with fixed width `w > 0` and every
captured attribute value (including the empty attribute), the bytes the
slot contributes, excluding ANSI escape sequences, number exactly `w`:
longer text is truncated to `w` bytes, shorter text is padded on the right
(left-aligned) or on the left (right-aligned), and an absent value yields
exactly `w` spaces. -/
theorem writeHeader_fixed_width (noColor : Bool) (replaceAttr : Option (Attr → Attr))
    (style : ANSIMod) (b : Buffer) (a : Attr) (w : Nat) (rightAlign : Bool) (hw : 0 < w) :
    writeHeader noColor replaceAttr style b a w rightAlign
      = b ++ headerContribution noColor style (applyHeaderReplace replaceAttr a) w rightAlign
    ∧ (headerContribution noColor style (applyHeaderReplace replaceAttr a) w rightAlign).length
      = w + (if (applyHeaderReplace replaceAttr a).val.isEmptyVal
              || style = ([] : List Char) || noColor then 0
             else style.length + ResetMod.length) := by
  constructor
  · unfold writeHeader headerContribution
    by_cases he : (applyHeaderReplace replaceAttr a).val.isEmptyVal
    · rw [if_pos he, if_pos he, if_pos hw]
      rfl
    · rw [if_neg he, if_neg he]
      unfold withColor
      by_cases hc : (style = ([] : List Char) || noColor) = true
      · rw [if_pos hc, if_pos hc]
        exact writeHeaderInner_spec _ w hw rightAlign b
      · rw [if_neg hc, if_neg hc]
        rw [writeHeaderInner_spec _ w hw rightAlign (b ++ style)]
        simp [List.append_assoc]
  · unfold headerContribution
    by_cases he : (applyHeaderReplace replaceAttr a).val.isEmptyVal
    · rw [if_pos he]
      simp [he]
    · have he' : (applyHeaderReplace replaceAttr a).val.isEmptyVal = false := by
        simpa using he
      rw [if_neg he]
      simp only [he', Bool.false_or]
      by_cases hc : (decide (style = ([] : List Char)) || noColor) = true
      · rw [if_pos hc, if_pos hc]
        simp [fitToWidth_length]
      · rw [if_neg hc, if_neg hc]
        simp [fitToWidth_length]
        omega

/-- Witness for C1 at a concrete input (width 5, value `bar`, no colour). -/
theorem writeHeader_fixed_width_witness :
    writeHeader true none [] "INF ".toList ⟨"foo".toList, Value.str "bar".toList⟩ 5 false
      = "INF ".toList ++ headerContribution true []
          (applyHeaderReplace none ⟨"foo".toList, Value.str "bar".toList⟩) 5 false
    ∧ (headerContribution true []
          (applyHeaderReplace none ⟨"foo".toList, Value.str "bar".toList⟩) 5 false).length
      = 5 + (if (applyHeaderReplace none ⟨"foo".toList, Value.str "bar".toList⟩).val.isEmptyVal
              || ([] : List Char) = ([] : List Char) || true then 0
             else ([] : List Char).length + ResetMod.length) :=
  writeHeader_fixed_width true none [] "INF ".toList
    ⟨"foo".toList, Value.str "bar".toList⟩ 5 false (by decide)

end ConsoleSlog

namespace ConsoleSlog

/-- The theme structure (theme.go): one ANSI style per rendered element. -/
structure Theme where
  timestamp : ANSIMod := []
  header : ANSIMod := []
  source : ANSIMod := []
  message : ANSIMod := []
  messageDebug : ANSIMod := []
  attrKey : ANSIMod := []
  attrValue : ANSIMod := []
  attrValueError : ANSIMod := []
  levelError : ANSIMod := []
  levelWarn : ANSIMod := []
  levelInfo : ANSIMod := []
  levelDebug : ANSIMod := []

/-- `getThemeStyleByName` (handler.go, lines 1335-1366): style lookup by
name; returns the header style with `false` for unrecognized names. -/
def getThemeStyleByName (theme : Theme) (name : List Char) : ANSIMod × Bool :=
  if name = ([] : List Char) then (theme.header, true)
  else if name = "timestamp".toList then (theme.timestamp, true)
  else if name = "header".toList then (theme.header, true)
  else if name = "source".toList then (theme.source, true)
  else if name = "message".toList then (theme.message, true)
  else if name = "messageDebug".toList then (theme.messageDebug, true)
  else if name = "attrKey".toList then (theme.attrKey, true)
  else if name = "attrValue".toList then (theme.attrValue, true)
  else if name = "attrValueError".toList then (theme.attrValueError, true)
  else if name = "levelError".toList then (theme.levelError, true)
  else if name = "levelWarn".toList then (theme.levelWarn, true)
  else if name = "levelInfo".toList then (theme.levelInfo, true)
  else if name = "levelDebug".toList then (theme.levelDebug, true)
  else (theme.header, false)

/-- slog level constants: Debug = -4, Info = 0, Warn = 4, Error = 8. -/
def LevelDebug : Int := -4

def LevelInfo : Int := 0

def LevelWarn : Int := 4

def LevelError : Int := 8

/-- Go `fmt.Sprintf("%+d", d)` for a nonzero int: always-signed decimal. -/
def formatPlusD (d : Int) : List Char :=
  if d > 0 then '+' :: (toString d).toList else (toString d).toList

/-- `encoder.writeLevel` (encoding.go, lines 323-397), in the
configuration without a `ReplaceAttr` hook (the hook-present branch feeds
a replacement value through `writeColoredValue` instead and is not needed
by any claim). -/
def writeLevel (noColor : Bool) (theme : Theme) (buf : Buffer) (l : Int)
    (abbreviated : Bool) : Buffer :=
  let res : ANSIMod × List Char × Int :=
    if l ≥ LevelError then
      (theme.levelError, (if abbreviated then "ERR" else "ERROR").toList, l - LevelError)
    else if l ≥ LevelWarn then
      (theme.levelWarn, (if abbreviated then "WRN" else "WARN").toList, l - LevelWarn)
    else if l ≥ LevelInfo then
      (theme.levelInfo, (if abbreviated then "INF" else "INFO").toList, l - LevelInfo)
    else if l ≥ LevelDebug then
      (theme.levelDebug, (if abbreviated then "DBG" else "DEBUG").toList, l - LevelDebug)
    else
      (theme.levelDebug, (if abbreviated then "DBG" else "DEBUG").toList, l - LevelDebug)
  let str := if res.2.2 ≠ 0 then res.2.1 ++ formatPlusD res.2.2 else res.2.1
  withColor noColor res.1 buf (fun b => b ++ str)

/-- `encoder.writeMessage` (encoding.go, lines 142-161), hook-absent
configuration. -/
def writeMessage (noColor : Bool) (theme : Theme) (buf : Buffer) (level : Int)
    (msg : List Char) : Buffer :=
  let style := if level < LevelInfo then theme.messageDebug else theme.message
  withColor noColor style buf (fun b => b ++ msg)

/-- `encoder.writeTimestamp` (encoding.go, lines 109-140), hook-absent
configuration.  The record's time is modelled as the already-formatted
text (`AppendTime` with the configured format is an external collaborator);
`none` is the zero time, which is elided. -/
def writeTimestamp (noColor : Bool) (theme : Theme) (buf : Buffer)
    (tt : Option (List Char)) : Buffer :=
  match tt with
  | none => buf
  | some s => withColor noColor theme.timestamp buf (fun b => b ++ s)

/-- Modelled from the spec: the call-site slot (`encodeSource`, not among
the sources; only its call site in `Handle` is).  The spec says a present
call-site renders as `path:line` text; we model the record's call site as
that already-rendered text, `none` when absent (renders nothing). -/
def encodeSource (noColor : Bool) (theme : Theme) (buf : Buffer)
    (src : Option (List Char)) : Buffer :=
  match src with
  | none => buf
  | some s => withColor noColor theme.source buf (fun b => b ++ s)

end ConsoleSlog

namespace ConsoleSlog

/-- A compiled header slot (`headerField` in handler.go).  `grpPre` is the
group prefix field of the source struct. -/
structure HeaderField where
  grpPre : List Char := []
  key : List Char := []
  width : Nat := 0
  rightAlign : Bool := false
  memo : List Char := []
deriving DecidableEq

/-- One compiled instruction: the elements of the `fields` list produced
by `parseFormat` (handler.go).  String literals are `str`. -/
inductive Field where
  | timestampField
  | headerField (hf : HeaderField)
  | levelField (abbreviated : Bool)
  | messageField
  | attrsField
  | sourceField
  | groupOpen (style : List Char)
  | groupClose
  | spacer (hard : Bool)
  | str (s : List Char)
deriving DecidableEq

/-- Is this instruction one of the slot (field) instructions — the ones
that fall through the first `switch` in `Handle` into the render step? -/
def Field.isSlot : Field → Bool
  | Field.timestampField => true
  | Field.headerField _ => true
  | Field.levelField _ => true
  | Field.messageField => true
  | Field.attrsField => true
  | Field.sourceField => true
  | _ => false

/-- `encodeState` (handler.go, lines 1032-1047). -/
structure EncodeState where
  groupStart : Nat := 0
  printedField : Bool := false
  seenFields : Nat := 0
  anchored : Bool := false
  pendingSpace : Bool := false
  pendingHardSpace : Bool := false
  style : List Char := []
deriving DecidableEq

/-- A log record as the interpreter consumes it: the timestamp and the
call site are modelled as their already-rendered texts (`none` = absent /
zero value, which elides). -/
structure Record where
  time : Option (List Char) := none
  level : Int := LevelInfo
  message : List Char := []
  source : Option (List Char) := none

/-- The handler configuration consulted by the interpreter loop. -/
structure HandlerCfg where
  noColor : Bool := true
  theme : Theme := {}
  fields : List Field := []
  headerFields : List HeaderField := []

/-- The borrowed per-render encoder (`encoder` in encoding.go): output
buffer, flat attribute buffer, multi-line attribute buffer, and the
header-slot capture array. -/
structure Encoder where
  buf : Buffer := []
  attrBuf : Buffer := []
  multilineAttrBuf : Buffer := []
  headerAttrs : List Attr := []
deriving DecidableEq

/-- The complete mutable state of `Handle`'s instruction loop. -/
structure InterpState where
  enc : Encoder := {}
  stack : List EncodeState := []
  state : EncodeState := {}
  headerIdx : Nat := 0
deriving DecidableEq

/-- The render step for one slot instruction (the second `switch` in
`Handle`), acting on the buffer with the pending space already flushed.
Returns the updated encoder and header index. -/
def renderSlot (cfg : HandlerCfg) (rec : Record) (enc : Encoder) (headerIdx : Nat)
    (buf0 : Buffer) : Field → Encoder × Nat
  | Field.headerField _ =>
      let hf := cfg.headerFields.getD headerIdx {}
      let ha := enc.headerAttrs.getD headerIdx Attr.emptyAttr
      let buf1 :=
        if ha.isEmpty && hf.memo ≠ ([] : List Char) then buf0 ++ hf.memo
        else writeHeader cfg.noColor none cfg.theme.source buf0 ha hf.width hf.rightAlign
      ({ enc with buf := buf1 }, headerIdx + 1)
  | Field.levelField ab =>
      ({ enc with buf := writeLevel cfg.noColor cfg.theme buf0 rec.level ab }, headerIdx)
  | Field.messageField =>
      ({ enc with buf := writeMessage cfg.noColor cfg.theme buf0 rec.level rec.message },
        headerIdx)
  | Field.attrsField =>
      -- trim the attrBuf and multilineAttrBuf to remove leading spaces
      -- but leave a space between attrBuf and multilineAttrBuf
      let enc :=
        if 0 < enc.attrBuf.length then { enc with attrBuf := trimSpace enc.attrBuf }
        else if 0 < enc.multilineAttrBuf.length then
          { enc with multilineAttrBuf := trimSpace enc.multilineAttrBuf }
        else enc
      ({ enc with buf := buf0 ++ enc.attrBuf ++ enc.multilineAttrBuf }, headerIdx)
  | Field.sourceField =>
      ({ enc with buf := encodeSource cfg.noColor cfg.theme buf0 rec.source }, headerIdx)
  | Field.timestampField =>
      ({ enc with buf := writeTimestamp cfg.noColor cfg.theme buf0 rec.time }, headerIdx)
  | _ => ({ enc with buf := buf0 }, headerIdx)

/-- One iteration of `Handle`'s instruction loop (handler.go, lines
911-1020). -/
def execField (cfg : HandlerCfg) (rec : Record) (s : InterpState) (f : Field) : InterpState :=
  match f with
  | Field.groupOpen style =>
      { s with
          stack := s.state :: s.stack,
          state := { s.state with
                        groupStart := s.enc.buf.length,
                        printedField := false,
                        seenFields := 0,
                        style := style } }
  | Field.groupClose =>
      match s.stack with
      | [] =>
          -- missing group open: no-op
          s
      | lastState :: rest =>
          if s.state.printedField || s.state.seenFields = 0 then
            -- merge the current state with the prior state
            { s with
                state := { s.state with
                              groupStart := lastState.groupStart,
                              style := lastState.style,
                              seenFields := s.state.seenFields + lastState.seenFields },
                stack := rest }
          else
            -- no fields were printed in this group: roll the group back
            { s with
                enc := { s.enc with buf := s.enc.buf.take s.state.groupStart },
                state := lastState,
                stack := rest }
  | Field.spacer hard =>
      if s.enc.buf.length = 0 then s
      else if hard then { s with state := { s.state with pendingHardSpace := true } }
      else { s with state := { s.state with pendingSpace := s.state.anchored } }
  | Field.str t =>
      let buf := if s.state.pendingHardSpace then Buffer.appendByte s.enc.buf ' '
                 else s.enc.buf
      let style := (getThemeStyleByName cfg.theme s.state.style).1
      let buf := withColor cfg.noColor style buf (fun b => b ++ t)
      { s with
          enc := { s.enc with buf := buf },
          state := { s.state with
                        pendingHardSpace := false,
                        pendingSpace := false,
                        anchored := false } }
  | f =>
      let pending := s.state.pendingSpace || s.state.pendingHardSpace
      let buf0 := if pending then s.enc.buf ++ [' '] else s.enc.buf
      let l := buf0.length
      let res := renderSlot cfg rec s.enc s.headerIdx buf0 f
      let printed := decide (l < res.1.buf.length)
      let st1 := { s.state with
                      seenFields := s.state.seenFields + 1,
                      printedField := s.state.printedField || printed }
      if printed then
        { enc := res.1,
          stack := s.stack,
          headerIdx := res.2,
          state := { st1 with
                        pendingSpace := false,
                        pendingHardSpace := false,
                        anchored := true } }
      else if pending then
        -- chop the last space (bytes.TrimSpace on the whole buffer),
        -- leaving the pending-space flags as they are
        { enc := { res.1 with buf := trimSpace res.1.buf },
          stack := s.stack,
          state := st1,
          headerIdx := res.2 }
      else
        { enc := res.1,
          stack := s.stack,
          state := st1,
          headerIdx := res.2 }

/-- The whole instruction loop of `Handle`. -/
def runFields (cfg : HandlerCfg) (rec : Record) (s : InterpState) : List Field → InterpState :=
  List.foldl (execField cfg rec) s

end ConsoleSlog

namespace ConsoleSlog

/-- The one failure mode of the Go compiler: an out-of-range string index
(a runtime panic). -/
inductive GoPanic where
  | indexOutOfRange
deriving DecidableEq

/-- The literal-run scan predicate (`format[i] != '%' && format[i] != ' '`). -/
def scanLit (x : Char) : Bool := x ≠ '%' && x ≠ ' '

/-- The style-modifier scan predicate (`format[end] != ')' && format[end] != ' '`). -/
def scanParen (x : Char) : Bool := x ≠ ')' && x ≠ ' '

/-- The key-modifier scan predicate (`format[end] != ']' && format[end] != ' '`). -/
def scanBracket (x : Char) : Bool := x ≠ ']' && x ≠ ' '

/-- Go `format[i] >= '0' && format[i] <= '9'`. -/
def goIsDigit (c : Char) : Bool := '0' ≤ c && c ≤ '9'

/-- The width accumulator `width = width*10 + int(format[i]-'0')` over a
digit run. -/
def digitsToNat (ds : List Char) : Nat :=
  ds.foldl (fun w c => w * 10 + (c.toNat - '0'.toNat)) 0

/-- `strings.LastIndexByte(key, '.')` splitting: group prefix before the
last dot, key after it; no dot leaves the prefix empty. -/
def splitLastDot (key : List Char) : List Char × List Char :=
  let after := (key.reverse.takeWhile (fun c => c ≠ '.')).reverse
  if after.length = key.length then ([], key)
  else (key.take (key.length - after.length - 1), after)

/-- The modifier loop of `parseFormat` (`for i < len(format)` scanning `-`
and digit runs), written with a fuel argument for structural recursion;
every iteration consumes at least one input character, so `cs.length` fuel
is always enough.  Returns `(rightAlign, widthSeen, width, remaining)`. -/
def munchModsF (fuel : Nat) (cs : List Char) (rightAlign widthSeen : Bool) (width : Nat) :
    Bool × Bool × Nat × List Char :=
  match fuel, cs with
  | _, [] => (rightAlign, widthSeen, width, [])
  | 0, _ => (rightAlign, widthSeen, width, cs)
  | fuel + 1, c :: rest =>
      if c = '-' then munchModsF fuel rest true widthSeen width
      else if goIsDigit c then
        -- the inner digit loop resets and re-accumulates the width
        let run := (c :: rest).takeWhile goIsDigit
        let rest' := rest.dropWhile goIsDigit
        munchModsF fuel rest' rightAlign true (digitsToNat run)
      else (rightAlign, widthSeen, width, c :: rest)

/-- The modifier loop, with the fuel supplied. -/
def munchMods (cs : List Char) : Bool × Bool × Nat × List Char :=
  munchModsF cs.length cs false false 0

/-- The verb switch plus the invalid-combination checks at the bottom of
`parseFormat`'s loop body (`cs` starts at the verb position).  The checks
run in source order: the verb switch first (its placeholder arms bypass
the combination checks via `continue`), then the style / key / width /
right-align combination checks. -/
def parseVerb (theme : Theme) (styleSeen : Bool) (style : List Char) (keySeen : Bool)
    (key : List Char) (rightAlign widthSeen : Bool) (width : Nat) (cs : List Char) :
    List Field × List Char :=
  match cs with
  | [] => ([Field.str "%!(MISSING_VERB)".toList], [])
  | v :: cs1 =>
      if v = ' ' then
        -- backtrack so the space is included in the next field
        ([Field.str "%!(MISSING_VERB)".toList], v :: cs1)
      else
        -- Parse the verb
        let parsed : Option Field :=
          if v = 't' then some Field.timestampField
          else if v = 'm' then some Field.messageField
          else if v = 'l' then some (Field.levelField true)
          else if v = 'L' then some (Field.levelField false)
          else if v = '}' then some Field.groupClose
          else if v = 's' then some Field.sourceField
          else if v = 'a' then some Field.attrsField
          else none
        if v = 'h' then
          if key = [] then ([Field.str "%!h(MISSING_HEADER_NAME)".toList], cs1)
          else
            let sp := splitLastDot key
            let hf : HeaderField :=
              { grpPre := sp.1, key := sp.2, width := width, rightAlign := rightAlign,
                memo := [] }
            if styleSeen then
              ([Field.str ("%!((INVALID_MODIFIER)".toList ++ [v])], cs1)
            else ([Field.headerField hf], cs1)
        else if v = '{' then
          if ¬ (getThemeStyleByName theme style).2 then
            ([Field.str ("%!\x7b(".toList ++ style ++ ")(INVALID_STYLE_MODIFIER)".toList)],
              cs1)
          else if keySeen then
            ([Field.str ("%![(INVALID_MODIFIER)".toList ++ [v])], cs1)
          else if widthSeen then
            ([Field.str ("%!".toList ++ (toString width).toList
                ++ "(INVALID_MODIFIER)".toList ++ [v])], cs1)
          else if rightAlign then
            ([Field.str ("%!-(INVALID_MODIFIER)".toList ++ [v])], cs1)
          else ([Field.groupOpen style], cs1)
        else
          match parsed with
          | none => ([Field.str ("%!".toList ++ [v] ++ "(INVALID_VERB)".toList)], cs1)
          | some fld =>
              -- Check for invalid combinations
              if styleSeen then
                ([Field.str ("%!((INVALID_MODIFIER)".toList ++ [v])], cs1)
              else if keySeen then
                ([Field.str ("%![(INVALID_MODIFIER)".toList ++ [v])], cs1)
              else if widthSeen then
                ([Field.str ("%!".toList ++ (toString width).toList
                    ++ "(INVALID_MODIFIER)".toList ++ [v])], cs1)
              else if rightAlign then
                ([Field.str ("%!-(INVALID_MODIFIER)".toList ++ [v])], cs1)
              else ([fld], cs1)

/-- The `[name]` modifier parse and everything after it.  In the source
this starts at the read `format[i] == '['`, which is performed without a
bounds check: when a style modifier was consumed and ended the string,
that read is out of range (a panic, modelled as `GoPanic`).  The
empty-input arm is only ever reached on that path — without a style
modifier the caller passes a nonempty input. -/
def parseAfterStyle (theme : Theme) (styleSeen : Bool) (style : List Char)
    (cs : List Char) : Except GoPanic (List Field × List Char) :=
  match cs with
  | [] => Except.error GoPanic.indexOutOfRange
  | c :: cs1 =>
      if c = '[' then
        let inner := cs1.takeWhile scanBracket
        match cs1.dropWhile scanBracket with
        | ']' :: cs2 =>
            Except.ok (parseVerb theme styleSeen style true inner
              (munchMods cs2).1 (munchMods cs2).2.1 (munchMods cs2).2.2.1
              (munchMods cs2).2.2.2)
        | after =>
            Except.ok
              ([Field.str ("%![".toList ++ inner ++ "(MISSING_CLOSING_BRACKET)".toList)],
                after)
      else
        Except.ok (parseVerb theme styleSeen style false []
          (munchMods (c :: cs1)).1 (munchMods (c :: cs1)).2.1
          (munchMods (c :: cs1)).2.2.1 (munchMods (c :: cs1)).2.2.2)

/-- The body of `parseFormat`'s loop for one `%`-construct, starting just
after the `%` (the `%%` escape was already ruled out).  An empty rest is
the `i >= len(format)` check right after `i++`. -/
def parsePercent (theme : Theme) (cs : List Char) : Except GoPanic (List Field × List Char) :=
  match cs with
  | [] => Except.ok ([Field.str "%!(MISSING_VERB)".toList], [])
  | c :: cs1 =>
      if c = '(' then
        let inner := cs1.takeWhile scanParen
        match cs1.dropWhile scanParen with
        | ')' :: cs2 => parseAfterStyle theme true inner cs2
        | after =>
            Except.ok
              ([Field.str ("%!(".toList ++ inner
                  ++ "(MISSING_CLOSING_PARENTHESIS)".toList)],
                after)
      else
        parseAfterStyle theme false [] (c :: cs1)

/-- The scanning loop of `parseFormat` (handler.go, lines 1162-1329),
over the remaining input with the `lastWasSpace` flag, with a fuel
argument for structural recursion; every iteration consumes at least one
input character, so `cs.length` fuel is always enough.  In the
literal-run case the branch conditions guarantee the leading character
satisfies the scan predicate, so the run is `c` followed by the matching
run of the tail. -/
def parseLoopF (theme : Theme) (fuel : Nat) (cs : List Char) (lastWasSpace : Bool) :
    Except GoPanic (List Field) :=
  match fuel, cs with
  | _, [] => Except.ok []
  | 0, _ => Except.ok []
  | fuel + 1, c :: rest =>
      if c = ' ' then
        if lastWasSpace then parseLoopF theme fuel rest true
        else
          match parseLoopF theme fuel rest true with
          | Except.error e => Except.error e
          | Except.ok fs => Except.ok (Field.spacer false :: fs)
      else if c = '%' then
        match rest with
        | [] =>
            -- i++ ran off the end: emit the placeholder and stop
            Except.ok [Field.str "%!(MISSING_VERB)".toList]
        | d :: rest2 =>
            if d = '%' then
              -- %% escape
              match parseLoopF theme fuel rest2 false with
              | Except.error e => Except.error e
              | Except.ok fs => Except.ok (Field.str ['%'] :: fs)
            else
              match parsePercent theme (d :: rest2) with
              | Except.error e => Except.error e
              | Except.ok r =>
                  match parseLoopF theme fuel r.2 false with
                  | Except.error e => Except.error e
                  | Except.ok fs => Except.ok (r.1 ++ fs)
      else
        let run := c :: rest.takeWhile scanLit
        match parseLoopF theme fuel (rest.dropWhile scanLit) false with
        | Except.error e => Except.error e
        | Except.ok fs => Except.ok (Field.str run :: fs)

/-- The scanning loop, with the fuel supplied. -/
def parseLoop (theme : Theme) (cs : List Char) (lastWasSpace : Bool) :
    Except GoPanic (List Field) :=
  parseLoopF theme cs.length cs lastWasSpace

/-- `parseFormat` (handler.go, lines 1155-1332): trim the format, scan it,
and collect the header-slot catalog from the emitted instructions. -/
def parseFormat (format : List Char) (theme : Theme) :
    Except GoPanic (List Field × List HeaderField) :=
  match parseLoop theme (trimSpace format) false with
  | Except.error e => Except.error e
  | Except.ok fields =>
      Except.ok (fields, fields.filterMap (fun f =>
        match f with
        | Field.headerField hf => some hf
        | _ => none))

end ConsoleSlog

namespace ConsoleSlog

/-- The hard-space marking pass in `NewHandler` (handler.go, lines
826-850), one loop iteration per fuel unit; `i` is the loop index,
`lastSpace` the index of the last pending spacer (`-1` is `none`).
Instruction kinds outside the three `switch` cases (groups, source,
attrs) leave the scan state unchanged, as in the source. -/
def markHardF (fuel : Nat) (fields : List Field) (i : Nat) (wasString : Bool)
    (lastSpace : Option Nat) : List Field :=
  match fuel with
  | 0 => fields
  | fuel + 1 =>
      match fields.get? i with
      | none => fields
      | some f =>
          match f with
          | Field.headerField _ => markHardF fuel fields (i + 1) false none
          | Field.levelField _ => markHardF fuel fields (i + 1) false none
          | Field.messageField => markHardF fuel fields (i + 1) false none
          | Field.timestampField => markHardF fuel fields (i + 1) false none
          | Field.str _ =>
              let fields :=
                match lastSpace with
                | some j => fields.set j (Field.spacer true)
                | none => fields
              markHardF fuel fields (i + 1) true none
          | Field.spacer _ =>
              let fields := if wasString then fields.set i (Field.spacer true) else fields
              markHardF fuel fields (i + 1) false (some i)
          | _ => markHardF fuel fields (i + 1) wasString lastSpace

/-- The hard-space marking pass over the whole instruction list. -/
def markHardSpaces (fields : List Field) : List Field :=
  markHardF fields.length fields 0 false none

/-- The configuration the attribute encoder consults. -/
structure EncodeCfg where
  noColor : Bool := true
  theme : Theme := {}
  replaceAttr : Option (List (List Char) → Attr → Attr) := none
  headerFields : List HeaderField := []

/-- The encoder state threaded through the attribute walk: the two
attribute buffers, the header capture array, and the open-group list
passed to the `ReplaceAttr` hook. -/
structure EncAttrState where
  attrBuf : Buffer := []
  multilineAttrBuf : Buffer := []
  headerAttrs : List Attr := []
  groups : List (List Char) := []
deriving DecidableEq

/-- The `" key=value"` span `writeAttr` appends for a non-group attribute
(encoding.go, lines 258-274); the error-value styling branch concerns the
`KindAny` error kind, outside the modelled kinds. -/
def writeAttrSpan (noColor : Bool) (theme : Theme) (group : List Char) (a : Attr) : Buffer :=
  let keyPart := (if group ≠ ([] : List Char) then group ++ ['.'] else []) ++ a.key ++ ['=']
  let b := withColor noColor theme.attrKey [' '] (fun x => x ++ keyPart)
  withColor noColor theme.attrValue b (fun x => x ++ valueText a.val)

/-- Modelled from the spec: the header-capture test of the encoder
(`encodeAttr` is not among the sources; `writeAttr` in encoding.go is its
pre-capture version).  Per spec §4.2 step 5, a non-group attribute fills
the first header slot whose group prefix and key match the attribute's
accumulated group prefix and key and whose captured value is still empty. -/
def findCaptureIdx (hfs : List HeaderField) (has : List Attr) (group key : List Char) :
    Option Nat :=
  (List.range hfs.length).find? (fun i =>
    (hfs.getD i {}).grpPre = group && (hfs.getD i {}).key = key
      && (has.getD i Attr.emptyAttr).isEmpty)

mutual

/-- A computable node count for values, used only as a fuel bound for the
hook-returned-group path of the attribute walk. -/
def Value.vsize : Value → Nat
  | Value.empty => 1
  | Value.str _ => 1
  | Value.group g => 1 + Value.vsizeList g

/-- Node count of a child list. -/
def Value.vsizeList : AttrList → Nat
  | AttrList.anil => 0
  | AttrList.acons _ v rest => 1 + Value.vsize v + Value.vsizeList rest

end

mutual

/-- The general attribute walk with a fuel bound, used for values produced
by the `ReplaceAttr` hook (a hook may return a group value, which the
source re-enters; that result is not a structural subterm, so this copy of
the walk is fuel-bounded — a hook returning ever-larger groups would not
terminate in Go either). -/
def encodeAttrFuel (cfg : EncodeCfg) (st : EncAttrState) (group : List Char) (a : Attr)
    (fuel : Nat) : EncAttrState :=
  match fuel with
  | 0 => st
  | fuel + 1 =>
      match a.val with
      | Value.group children =>
          if (Attr.mk a.key a.val).isEmpty then st
          else
            let subgroup := if group = ([] : List Char) then a.key
                            else group ++ ['.'] ++ a.key
            let st1 :=
              match cfg.replaceAttr with
              | some _ => { st with groups := st.groups ++ [a.key] }
              | none => st
            let st2 := encodeAttrListFuel cfg st1 subgroup children fuel
            match cfg.replaceAttr with
            | some _ => { st2 with groups := st2.groups.dropLast }
            | none => st2
      | v =>
          let a1 : Attr :=
            match cfg.replaceAttr with
            | some f => f st.groups (Attr.mk a.key v)
            | none => Attr.mk a.key v
          if a1.isEmpty then st
          else if a1.val.isGroup then
            encodeAttrFuel cfg st group a1 fuel
          else
            match findCaptureIdx cfg.headerFields st.headerAttrs group a1.key with
            | some i => { st with headerAttrs := st.headerAttrs.set i a1 }
            | none =>
                let span := writeAttrSpan cfg.noColor cfg.theme group a1
                if span.contains '\n' then
                  { st with multilineAttrBuf := st.multilineAttrBuf ++ span }
                else
                  { st with attrBuf := st.attrBuf ++ span }

/-- The fuel-bounded walk over a group's children. -/
def encodeAttrListFuel (cfg : EncodeCfg) (st : EncAttrState) (group : List Char)
    (children : AttrList) (fuel : Nat) : EncAttrState :=
  match fuel, children with
  | _, AttrList.anil => st
  | 0, _ => st
  | fuel + 1, AttrList.acons k v rest =>
      encodeAttrListFuel cfg (encodeAttrFuel cfg st group (Attr.mk k v) fuel) group rest fuel

end

mutual

/-- The attribute walk on a value: `writeAttr` (encoding.go, lines
228-275) extended, per the spec, with the header-capture step and the
multi-line diversion of the missing `encodeAttr`.  (`Modelled from the
spec:` the capture step is §4.2 step 5 — a non-group attribute fills the
first matching empty header slot and is then withheld from the buffers;
the diversion is §4.2 step 7 — a just-written `" key=value"` span
containing a line break goes to the multi-line buffer instead.)  Value
resolution is the identity on the modelled kinds.  The `ReplaceAttr` hook
runs only for non-group attributes; a hook-returned group value re-enters
the walk (fuel-bounded copy, as it is not a subterm). -/
def encodeAttrVal (cfg : EncodeCfg) (st : EncAttrState) (group : List Char)
    (key : List Char) : Value → EncAttrState
  | Value.group children =>
      -- the hook is not called for group attributes
      if (Attr.mk key (Value.group children)).isEmpty then st
      else
        let subgroup := if group = ([] : List Char) then key else group ++ ['.'] ++ key
        let st1 :=
          match cfg.replaceAttr with
          | some _ => { st with groups := st.groups ++ [key] }
          | none => st
        let st2 := encodeAttrList cfg st1 subgroup children
        match cfg.replaceAttr with
        | some _ => { st2 with groups := st2.groups.dropLast }
        | none => st2
  | v =>
      let a1 : Attr :=
        match cfg.replaceAttr with
        | some f => f st.groups (Attr.mk key v)
        | none => Attr.mk key v
      -- Elide empty Attrs
      if a1.isEmpty then st
      else if a1.val.isGroup then
        encodeAttrFuel cfg st group a1 (Value.vsize a1.val)
      else
        match findCaptureIdx cfg.headerFields st.headerAttrs group a1.key with
        | some i => { st with headerAttrs := st.headerAttrs.set i a1 }
        | none =>
            let span := writeAttrSpan cfg.noColor cfg.theme group a1
            if span.contains '\n' then
              { st with multilineAttrBuf := st.multilineAttrBuf ++ span }
            else
              { st with attrBuf := st.attrBuf ++ span }

/-- The recursion of `writeAttr` over a group's children. -/
def encodeAttrList (cfg : EncodeCfg) (st : EncAttrState) (group : List Char) :
    AttrList → EncAttrState
  | AttrList.anil => st
  | AttrList.acons k v rest =>
      encodeAttrList cfg (encodeAttrVal cfg st group k v) group rest

end

/-- The attribute walk on an attribute. -/
def encodeAttr (cfg : EncodeCfg) (st : EncAttrState) (group : List Char) (a : Attr) :
    EncAttrState :=
  encodeAttrVal cfg st group a.key a.val

/-- The modelled handler value (the `Handler` struct, handler.go lines
760-769): options, compiled instructions, header catalog, group prefix
(named `groupPath` here), accumulated context buffers, and the
source-as-attribute flag. -/
structure HandlerM where
  noColor : Bool := true
  theme : Theme := {}
  replaceAttr : Option (List (List Char) → Attr → Attr) := none
  addSource : Bool := false
  fields : List Field := []
  headerFields : List HeaderField := []
  groupPath : List Char := []
  groups : List (List Char) := []
  context : Buffer := []
  multilineContext : Buffer := []
  sourceAsAttr : Bool := true

/-- `NewHandler`'s per-format work (handler.go, lines 821-869): compile
the format, run the hard-space pass, and compute `sourceAsAttr`. -/
def newHandlerM (format : List Char) (theme : Theme) (noColor : Bool)
    (replaceAttr : Option (List (List Char) → Attr → Attr) := none)
    (addSource : Bool := false) : Except GoPanic HandlerM :=
  match parseFormat format theme with
  | Except.error e => Except.error e
  | Except.ok (fields0, headerFields) =>
      let fields := markHardSpaces fields0
      let sourceAsAttr := ¬ fields.any (fun f => f = Field.sourceField)
      Except.ok
        { noColor := noColor, theme := theme, replaceAttr := replaceAttr,
          addSource := addSource, fields := fields, headerFields := headerFields,
          sourceAsAttr := sourceAsAttr }

/-- What `Handle` returns, together with the observable effects the
claims are about: the line handed to the sink and whether the borrowed
encoder was freed (cleared and returned to the pool) before returning. -/
structure HandleResult where
  err : Option (List Char) := none
  encoderFreed : Bool := false
  line : Buffer := []
  enc : Encoder := {}

/-- `encoder.free` (encoding.go, lines 41-51): clear all buffers (the
group scratch too) and return the instance to the pool. -/
def freeEncoder (_ : Encoder) : Encoder := {}

/-- The tail of `Handle` (handler.go, lines 1022-1029): the single write
to the sink, the early return on a write error (which skips `enc.free()`),
and the `enc.free()` call on the success path. -/
def handleWrite (line : Buffer) (enc : Encoder) (write : Buffer → Option (List Char)) :
    HandleResult :=
  match write line with
  | some e =>
      { err := some e, encoderFreed := false, line := line, enc := enc }
  | none =>
      { err := none, encoderFreed := true, line := line, enc := freeEncoder enc }

/-- The body of `Handler.Handle` up to the write (handler.go, lines
878-1022): encode the source attribute (when configured and not claimed by
a `%s` slot), seed the buffers from the accumulated context, encode the
record's attributes, run the instruction loop, and append the newline.
Returns the line to write and the encoder's final state. -/
def handleCore (h : HandlerM) (rec : Record) (attrs : List Attr) : Buffer × Encoder :=
  let cfg : EncodeCfg :=
    { noColor := h.noColor, theme := h.theme, replaceAttr := h.replaceAttr,
      headerFields := h.headerFields }
  let st0 : EncAttrState :=
    { headerAttrs := List.replicate h.headerFields.length Attr.emptyAttr,
      groups := match h.replaceAttr with
                | some _ => h.groups
                | none => [] }
  -- AddSource: the source attr is encoded outside any open groups
  let st1 :=
    match h.addSource, rec.source, h.sourceAsAttr with
    | true, some srcText, true =>
        let saved := st0.groups
        let st := encodeAttr cfg { st0 with groups := [] } []
          (Attr.mk "source".toList (Value.str srcText))
        { st with groups := saved }
    | _, _, _ => st0
  let st2 := { st1 with
                  attrBuf := st1.attrBuf ++ h.context,
                  multilineAttrBuf := st1.multilineAttrBuf ++ h.multilineContext }
  let st3 := attrs.foldl (fun st a => encodeAttr cfg st h.groupPath a) st2
  let enc0 : Encoder :=
    { buf := [], attrBuf := st3.attrBuf, multilineAttrBuf := st3.multilineAttrBuf,
      headerAttrs := st3.headerAttrs }
  let cfgI : HandlerCfg :=
    { noColor := h.noColor, theme := h.theme, fields := h.fields,
      headerFields := h.headerFields }
  let sEnd := runFields cfgI rec { enc := enc0 } h.fields
  let line := sEnd.enc.buf ++ ['\n']
  (line, sEnd.enc)

/-- `Handler.Handle` (handler.go, lines 878-1030): the body, then one
write of the whole line to the sink (`none` is a successful write);
`enc.free()` runs only on the success path, as in the source. -/
def handle (h : HandlerM) (rec : Record) (attrs : List Attr)
    (write : Buffer → Option (List Char)) : HandleResult :=
  handleWrite (handleCore h rec attrs).1 (handleCore h rec attrs).2 write

/-- A sink that always succeeds. -/
def okWriter : Buffer → Option (List Char) := fun _ => none

/-- The rendered line for a record, under a successful write. -/
def renderLine (h : HandlerM) (rec : Record) (attrs : List Attr) : Buffer :=
  (handle h rec attrs okWriter).line

end ConsoleSlog

namespace ConsoleSlog

/-- Claim C2: at a group-close instruction, a group that saw at least one
slot instruction none of which produced visible output is rolled back to
the buffer position recorded at the matching group-open (removing
everything the group wrote, literals included) and the parent state is
restored; a group that saw no slot instructions keeps its output; a
group-close with no matching group-open is a no-op.  The final conjunct
ties the recorded position to the group-open step. -/
theorem groupClose_semantics (cfg : HandlerCfg) (rec : Record) (s : InterpState) :
    (s.stack = [] → execField cfg rec s Field.groupClose = s)
    ∧ (∀ top rest, s.stack = top :: rest → s.state.printedField = false →
        s.state.seenFields ≠ 0 →
        execField cfg rec s Field.groupClose
          = { enc := { s.enc with buf := s.enc.buf.take s.state.groupStart },
              stack := rest, state := top, headerIdx := s.headerIdx })
    ∧ (∀ top rest, s.stack = top :: rest → s.state.seenFields = 0 →
        (execField cfg rec s Field.groupClose).enc.buf = s.enc.buf)
    ∧ (∀ style, (execField cfg rec s (Field.groupOpen style)).state.groupStart
        = s.enc.buf.length)
    := by
  refine ⟨?_, ?_, ?_, ?_⟩
  · intro h
    simp [execField, h]
  · intro top rest hs hpf hsf
    simp [execField, hs, hpf, hsf]
  · intro top rest hs hsf
    simp [execField, hs, hsf]
  · intro style
    simp [execField]

/-- Witness for C2 at a concrete interpreter state: a group containing one
elided slot and a literal is rolled back to position 3. -/
theorem groupClose_semantics_witness :
    execField {} {}
        { enc := { buf := "INF >".toList },
          stack := [{ anchored := true }],
          state := { groupStart := 3, printedField := false, seenFields := 1 },
          headerIdx := 0 } Field.groupClose
      = { enc := { buf := "INF".toList },
          stack := [], state := { anchored := true }, headerIdx := 0 } :=
  ((groupClose_semantics {} {}
      { enc := { buf := "INF >".toList },
        stack := [{ anchored := true }],
        state := { groupStart := 3, printedField := false, seenFields := 1 },
        headerIdx := 0 }).2.1
    { anchored := true } [] rfl rfl (by decide)).trans (by decide)

end ConsoleSlog

namespace ConsoleSlog

/-- A handler built from a format string (the `Except.error` fallback is
never taken by the formats used below). -/
def handlerFor (fmt : String) : HandlerM :=
  match newHandlerM fmt.toList {} true with
  | Except.ok h => h
  | Except.error _ => {}

/-- Counterexample to C3 as stated: with format `%l %[foo]5h %t %m`,
attribute `foo=bar` and a zero timestamp, the state after
`%l %[foo]5h` and the flushed soft space holds `"INF bar  "` (the header
padded to width 5) with a pending space; the elided `%t` slot then chops
the buffer to `"INF bar"` — `bytes.TrimSpace` removes the flushed space
AND the two trailing padding spaces, so previously rendered bytes are not
left intact as the claim states. -/
theorem spaceRollback_counterexample :
    (runFields
        { fields := (handlerFor "%l %[foo]5h %t %m").fields,
          headerFields := (handlerFor "%l %[foo]5h %t %m").headerFields } {}
        { enc := { headerAttrs := [Attr.mk "foo".toList (Value.str "bar".toList)] } }
        ((handlerFor "%l %[foo]5h %t %m").fields.take 4)).enc.buf
      = "INF bar  ".toList
    ∧ (runFields
        { fields := (handlerFor "%l %[foo]5h %t %m").fields,
          headerFields := (handlerFor "%l %[foo]5h %t %m").headerFields } {}
        { enc := { headerAttrs := [Attr.mk "foo".toList (Value.str "bar".toList)] } }
        ((handlerFor "%l %[foo]5h %t %m").fields.take 4)).state.pendingSpace = true
    ∧ (execField
        { fields := (handlerFor "%l %[foo]5h %t %m").fields,
          headerFields := (handlerFor "%l %[foo]5h %t %m").headerFields } {}
        (runFields
          { fields := (handlerFor "%l %[foo]5h %t %m").fields,
            headerFields := (handlerFor "%l %[foo]5h %t %m").headerFields } {}
          { enc := { headerAttrs := [Attr.mk "foo".toList (Value.str "bar".toList)] } }
          ((handlerFor "%l %[foo]5h %t %m").fields.take 4))
        Field.timestampField).enc.buf
      = "INF bar".toList
    ∧ ("INF bar".toList : List Char) ≠ "INF bar  ".toList := by
  refine ⟨by decide, by decide, by decide, by decide⟩

end ConsoleSlog

namespace ConsoleSlog

/-- Claim C3 (amended): a slot instruction executed with a pending soft or
hard space first flushes one space byte before rendering; if the slot
renders bytes they land after that space; if the slot renders zero bytes,
the whole buffer (flushed space included) is trimmed of leading and
trailing whitespace — removing the flushed space together with any
adjacent whitespace, such as trailing padding of an earlier fixed-width
header — and the pending-space flags remain available for the next
instruction. -/
theorem slotSpace_flush_and_rollback (cfg : HandlerCfg) (rec : Record) (s : InterpState)
    (f : Field) (hf : f.isSlot = true)
    (hp : (s.state.pendingSpace || s.state.pendingHardSpace) = true) :
    ((renderSlot cfg rec s.enc s.headerIdx (s.enc.buf ++ [' ']) f).1.buf.length
        > (s.enc.buf ++ [' ']).length →
      (execField cfg rec s f).enc
        = (renderSlot cfg rec s.enc s.headerIdx (s.enc.buf ++ [' ']) f).1)
    ∧ ((renderSlot cfg rec s.enc s.headerIdx (s.enc.buf ++ [' ']) f).1.buf
        = s.enc.buf ++ [' '] →
      (execField cfg rec s f).enc.buf = trimSpace (s.enc.buf ++ [' '])
      ∧ (execField cfg rec s f).state.pendingSpace = s.state.pendingSpace
      ∧ (execField cfg rec s f).state.pendingHardSpace = s.state.pendingHardSpace) := by
  cases f <;> simp [Field.isSlot] at hf <;>
    refine ⟨fun h => ?_, fun h => ?_⟩ <;>
    (try simp at h) <;>
    simp [execField, hp, h]

end ConsoleSlog

namespace ConsoleSlog

/-- Witness for the amended C3 at a concrete state: buffer `INF`, pending
soft space, elided timestamp slot. -/
theorem slotSpace_flush_and_rollback_witness :
    (execField {} {} { enc := { buf := "INF".toList }, state := { pendingSpace := true } }
        Field.timestampField).enc.buf
      = trimSpace ("INF".toList ++ [' '])
    ∧ (execField {} {} { enc := { buf := "INF".toList }, state := { pendingSpace := true } }
        Field.timestampField).state.pendingSpace = true :=
  have h := (slotSpace_flush_and_rollback {} {}
      { enc := { buf := "INF".toList }, state := { pendingSpace := true } }
      Field.timestampField (by decide) (by decide)).2 (by decide)
  ⟨h.1, h.2.1.trans (by decide)⟩

end ConsoleSlog

namespace ConsoleSlog

/-- Claim C7, evaluated on the code: `parseFormat` is NOT total — a
template ending right after a well-closed style modifier makes the source
read `format[i]` with `i == len(format)` (the unguarded `format[i] == '['`
check), an index-out-of-range panic.  On templates that avoid that corner
each malformed construct produces exactly the documented placeholder. -/
theorem parseFormat_panic_and_placeholders :
    parseFormat "%(source)".toList {} = Except.error GoPanic.indexOutOfRange
    ∧ parseFormat "%l %x %m".toList {}
        = Except.ok ([Field.levelField true, Field.spacer false,
            Field.str "%!x(INVALID_VERB)".toList, Field.spacer false, Field.messageField], [])
    ∧ parseFormat "%m %".toList {}
        = Except.ok ([Field.messageField, Field.spacer false,
            Field.str "%!(MISSING_VERB)".toList], [])
    ∧ parseFormat "%h".toList {}
        = Except.ok ([Field.str "%!h(MISSING_HEADER_NAME)".toList], [])
    ∧ parseFormat "%[fooh".toList {}
        = Except.ok ([Field.str "%![fooh(MISSING_CLOSING_BRACKET)".toList], [])
    ∧ parseFormat "%(sourceL %m".toList {}
        = Except.ok ([Field.str "%!(sourceL(MISSING_CLOSING_PARENTHESIS)".toList,
            Field.spacer false, Field.messageField], [])
    ∧ parseFormat "%-L".toList {}
        = Except.ok ([Field.str "%!-(INVALID_MODIFIER)L".toList], [])
    ∧ parseFormat "%43L".toList {}
        = Except.ok ([Field.str "%!43(INVALID_MODIFIER)L".toList], [])
    ∧ parseFormat "%(source)L".toList {}
        = Except.ok ([Field.str "%!((INVALID_MODIFIER)L".toList], [])
    ∧ parseFormat "%[source]L".toList {}
        = Except.ok ([Field.str "%![(INVALID_MODIFIER)L".toList], [])
    ∧ parseFormat "%(wrong)\x7b".toList {}
        = Except.ok ([Field.str "%!\x7b(wrong)(INVALID_STYLE_MODIFIER)".toList], []) :=
  ⟨rfl, rfl, rfl, rfl, rfl, rfl, rfl, rfl, rfl, rfl, rfl⟩

/-- The level text as the claim states it: the greatest named threshold
not exceeding the level (Error 8, Warn 4, Info 0, Debug -4; anything
below Debug uses the Debug form), followed by an always-signed decimal
offset when the level differs from that threshold. -/
def levelClaimText (l : Int) (abbreviated : Bool) : List Char :=
  let thr : Int := if l ≥ 8 then 8 else if l ≥ 4 then 4 else if l ≥ 0 then 0 else -4
  let name :=
    if thr = 8 then (if abbreviated then "ERR" else "ERROR")
    else if thr = 4 then (if abbreviated then "WRN" else "WARN")
    else if thr = 0 then (if abbreviated then "INF" else "INFO")
    else (if abbreviated then "DBG" else "DEBUG")
  name.toList ++ (if l = thr then [] else formatPlusD (l - thr))

/-- Claim C10: for every level value, the level slot renders the named
threshold's (abbreviated or full) name plus the signed offset exactly as
`levelClaimText` describes (colour disabled). -/
theorem writeLevel_threshold_offset (theme : Theme) (buf : Buffer) (l : Int)
    (abbreviated : Bool) :
    writeLevel true theme buf l abbreviated = buf ++ levelClaimText l abbreviated := by
  unfold writeLevel levelClaimText withColor LevelError LevelWarn LevelInfo LevelDebug
  by_cases h8 : l ≥ 8
  · have h4 : l ≥ 4 := by omega
    have h0 : l ≥ 0 := by omega
    simp [h8]
    by_cases he : l = 8
    · simp [he]
    · simp [he, sub_ne_zero.mpr he]
  · by_cases h4 : l ≥ 4
    · simp [h8, h4]
      by_cases he : l = 4
      · simp [he]
      · simp [he, sub_ne_zero.mpr he, (by omega : ¬ (4 : Int) = 8)]
    · by_cases h0 : l ≥ 0
      · simp [h8, h4, h0]
        by_cases he : l = 0
        · simp [he]
        · simp [he, sub_ne_zero.mpr he, (by omega : ¬ (0 : Int) = 8),
            (by omega : ¬ (0 : Int) = 4)]
      · by_cases hd : l ≥ -4
        · simp [h8, h4, h0, hd]
          by_cases he : l = -4
          · simp [he]
          · simp [he, sub_ne_zero.mpr he, (by omega : ¬ (-4 : Int) = 8),
              (by omega : ¬ (-4 : Int) = 4), (by omega : ¬ (-4 : Int) = 0)]
            intro hc
            exact absurd hc (by omega)
        · simp [h8, h4, h0, hd]
          have he : ¬ l = -4 := by omega
          simp [he, sub_ne_zero.mpr he, (by omega : ¬ (-4 : Int) = 8),
            (by omega : ¬ (-4 : Int) = 4), (by omega : ¬ (-4 : Int) = 0)]
          intro hc
          exact absurd hc (by omega)

end ConsoleSlog

namespace ConsoleSlog

/-- Does `l` start with `p`? -/
def listStartsWith : List Char → List Char → Bool
  | _, [] => true
  | [], _ :: _ => false
  | c :: l, d :: p => c = d && listStartsWith l p

/-- Does `l` contain `p` as a contiguous run? -/
def hasSub : List Char → List Char → Bool
  | [], p => p.isEmpty
  | c :: l, p => listStartsWith (c :: l) p || hasSub l p

/-- Encoding the empty attribute is a no-op when no `ReplaceAttr` hook is
configured. -/
theorem encodeAttr_empty (cfg : EncodeCfg) (hh : cfg.replaceAttr = none)
    (st : EncAttrState) (group : List Char) :
    encodeAttr cfg st group Attr.emptyAttr = st := by
  simp [encodeAttr, Attr.emptyAttr, encodeAttrVal, hh, Attr.isEmpty, Value.isEmptyVal]

/-- Claim C8 (amended): with no `ReplaceAttr` hook configured, rendering a
record containing the empty attribute is byte-identical to rendering the
same record with that attribute omitted — it is dropped before touching
the flat buffer, the multi-line buffer, or any header slot. -/
theorem renderLine_drops_empty_attr (h : HandlerM) (hh : h.replaceAttr = none)
    (rec : Record) (pre post : List Attr) :
    renderLine h rec (pre ++ Attr.emptyAttr :: post) = renderLine h rec (pre ++ post) := by
  have hfold : ∀ (st : EncAttrState),
      (pre ++ Attr.emptyAttr :: post).foldl
          (fun st a => encodeAttr
            { noColor := h.noColor, theme := h.theme, replaceAttr := h.replaceAttr,
              headerFields := h.headerFields } st h.groupPath a) st
        = (pre ++ post).foldl
          (fun st a => encodeAttr
            { noColor := h.noColor, theme := h.theme, replaceAttr := h.replaceAttr,
              headerFields := h.headerFields } st h.groupPath a) st := by
    intro st
    rw [List.foldl_append, List.foldl_append, List.foldl_cons,
      encodeAttr_empty _ (by simp [hh]) _ _]
  unfold renderLine handle handleCore
  simp only [hfold]

/-- A hook that rewrites the empty attribute into `k=v`; all other
attributes pass through unchanged. -/
def hookOnEmpty : List (List Char) → Attr → Attr := fun _ a =>
  if a.isEmpty then Attr.mk "k".toList (Value.str "v".toList) else a

/-- Counterexample to C8 as stated ("for every handler configuration"):
with a `ReplaceAttr` hook that maps the empty attribute to `k=v`, a record
holding the empty attribute renders differently from the same record
without it — `writeAttr` invokes the hook before the emptiness check. -/
theorem renderLine_empty_attr_counterexample :
    renderLine { handlerFor "%m %a" with replaceAttr := some hookOnEmpty }
        { message := "msg".toList } [Attr.emptyAttr]
      = "msg k=v\n".toList
    ∧ renderLine { handlerFor "%m %a" with replaceAttr := some hookOnEmpty }
        { message := "msg".toList } []
      = "msg\n".toList
    ∧ ("msg k=v\n".toList : List Char) ≠ "msg\n".toList :=
  ⟨by decide, by decide, by decide⟩

/-- Witness for the amended C8 at a concrete handler and record. -/
theorem renderLine_drops_empty_attr_witness :
    renderLine (handlerFor "%m %a") { message := "msg".toList }
        ([Attr.mk "a".toList (Value.str "1".toList)] ++ Attr.emptyAttr
          :: [Attr.mk "b".toList (Value.str "2".toList)])
      = renderLine (handlerFor "%m %a") { message := "msg".toList }
        ([Attr.mk "a".toList (Value.str "1".toList)]
          ++ [Attr.mk "b".toList (Value.str "2".toList)])
    ∧ renderLine (handlerFor "%m %a") { message := "msg".toList }
        ([Attr.mk "a".toList (Value.str "1".toList)]
          ++ [Attr.mk "b".toList (Value.str "2".toList)])
      = "msg a=1 b=2\n".toList :=
  ⟨renderLine_drops_empty_attr (handlerFor "%m %a") rfl
      { message := "msg".toList }
      [Attr.mk "a".toList (Value.str "1".toList)]
      [Attr.mk "b".toList (Value.str "2".toList)],
    by decide⟩

end ConsoleSlog

namespace ConsoleSlog

/-- Claim C9, evaluated on the code: inside a non-empty group prefix the
children of an empty-keyed group do NOT render as if declared at the
parent level — the subgroup prefix becomes `g` + `.` + `` = `g.`, and the
child then renders as `  g..k=v` with a doubled dot, where declaring the
child directly under `g` renders ` g.k=v`.  (At top level the inline rule
works; the divergence appears at any depth ≥ 1.) -/
theorem inlineGroup_doubleDot :
    (encodeAttr {} {} []
        (Attr.mk "g".toList (Value.group (AttrList.acons []
          (Value.group (AttrList.acons "k".toList (Value.str "v".toList) AttrList.anil))
          AttrList.anil)))).attrBuf
      = " g..k=v".toList
    ∧ (encodeAttr {} {} []
        (Attr.mk "g".toList
          (Value.group (AttrList.acons "k".toList (Value.str "v".toList) AttrList.anil)))).attrBuf
      = " g.k=v".toList
    ∧ (" g..k=v".toList : List Char) ≠ " g.k=v".toList :=
  ⟨by decide, by decide, by decide⟩

/-- Counterexample to C6 as stated: a multi-line value whose text ends in
line breaks (here `a\nb\n\n`) does NOT keep them in the output when the
flat attribute buffer is empty — the multi-line buffer is
whitespace-trimmed, so the line is `msg x=a\nb` plus the line terminator,
and the span `" x=a\nb\n\n"` with its trailing breaks appears nowhere in
the line. -/
theorem multiline_trailing_breaks_counterexample :
    renderLine (handlerFor "%m %a") { message := "msg".toList }
        [Attr.mk "x".toList (Value.str "a\nb\n\n".toList)]
      = "msg x=a\nb\n".toList
    ∧ hasSub ("msg x=a\nb\n".toList) (" x=a\nb\n\n".toList) = false :=
  ⟨by decide, by decide⟩

/-- Claim C6 (amended): a written attribute whose `" key=value"` span
contains a line break is diverted whole into the multi-line buffer (others
append to the flat buffer), and the attributes slot emits the flat buffer
(whitespace-trimmed) followed by the multi-line buffer — so multi-line
attributes follow all single-line attributes, each buffer in encounter
order, with interior line breaks intact.  When the flat buffer is empty
the multi-line buffer itself is whitespace-trimmed instead, which strips
line breaks at its edges (the amendment forced by the counterexample). -/
theorem multiline_diversion_and_tail (cfg : EncodeCfg) (hh : cfg.replaceAttr = none)
    (hhf : cfg.headerFields = []) (st : EncAttrState) (group key sv : List Char)
    (icfg : HandlerCfg) (rec : Record) (enc : Encoder) (idx : Nat) (buf0 : Buffer) :
    (encodeAttr cfg st group (Attr.mk key (Value.str sv))
      = (if (writeAttrSpan cfg.noColor cfg.theme group
              (Attr.mk key (Value.str sv))).contains '\n'
          then { st with multilineAttrBuf := st.multilineAttrBuf
                  ++ writeAttrSpan cfg.noColor cfg.theme group (Attr.mk key (Value.str sv)) }
          else { st with attrBuf := st.attrBuf
                  ++ writeAttrSpan cfg.noColor cfg.theme group (Attr.mk key (Value.str sv)) }))
    ∧ (0 < enc.attrBuf.length →
        renderSlot icfg rec enc idx buf0 Field.attrsField
          = ({ enc with
                attrBuf := trimSpace enc.attrBuf,
                buf := buf0 ++ trimSpace enc.attrBuf ++ enc.multilineAttrBuf }, idx))
    ∧ (enc.attrBuf = [] → 0 < enc.multilineAttrBuf.length →
        renderSlot icfg rec enc idx buf0 Field.attrsField
          = ({ enc with
                multilineAttrBuf := trimSpace enc.multilineAttrBuf,
                buf := buf0 ++ trimSpace enc.multilineAttrBuf }, idx)) := by
  refine ⟨?_, ?_, ?_⟩
  · simp [encodeAttr, encodeAttrVal, hh, hhf, findCaptureIdx, Attr.isEmpty,
      Value.isEmptyVal, Value.isGroup]
  · intro ha
    simp [renderSlot, ha]
  · intro ha hm
    simp [renderSlot, ha, hm]

/-- Witness for the amended C6: a multi-line attribute is diverted and a
nonempty flat buffer keeps the multi-line buffer untrimmed. -/
theorem multiline_diversion_and_tail_witness :
    encodeAttr {} {} [] (Attr.mk "x".toList (Value.str "a\nb".toList))
      = ({ multilineAttrBuf := " x=a\nb".toList } : EncAttrState)
    ∧ renderSlot {} {} { attrBuf := " s=1".toList, multilineAttrBuf := " x=a\nb".toList }
        0 "m ".toList Field.attrsField
      = ({ attrBuf := "s=1".toList,
           multilineAttrBuf := " x=a\nb".toList,
           buf := "m s=1 x=a\nb".toList }, 0) :=
  have h := multiline_diversion_and_tail {} rfl rfl {} [] "x".toList "a\nb".toList
    {} {} { attrBuf := " s=1".toList, multilineAttrBuf := " x=a\nb".toList } 0 "m ".toList
  ⟨h.1.trans (by decide), (h.2.1 (by decide)).trans (by decide)⟩

end ConsoleSlog

namespace ConsoleSlog

/-- Counterexample to C4 as stated: with a sink whose write fails, `Handle`
returns the error but does NOT clear and return the borrowed encoder —
`enc.free()` sits after the early `return err`, so cleanup happens only on
the success path. -/
theorem handle_writeError_skips_free :
    (handle (handlerFor "%m") { message := "msg".toList } []
        (fun _ => some "nope".toList)).err = some "nope".toList
    ∧ (handle (handlerFor "%m") { message := "msg".toList } []
        (fun _ => some "nope".toList)).encoderFreed = false :=
  ⟨by decide, by decide⟩

/-- The write tail of `Handle`: the sink's result is propagated, and the
encoder is freed exactly when the write succeeds. -/
theorem handleWrite_spec (line : Buffer) (enc : Encoder)
    (write : Buffer → Option (List Char)) :
    (handleWrite line enc write).err = write line
    ∧ (handleWrite line enc write).line = line
    ∧ ((handleWrite line enc write).encoderFreed = true ↔ write line = none)
    ∧ (write line = none → (handleWrite line enc write).enc = {}) := by
  unfold handleWrite freeEncoder
  cases write line <;> simp

/-- Claim C4 (amended): `Handle` propagates the sink's write error to its
caller, and the borrowed encoder is cleared and returned to the pool only
on the success path — the write-error early return skips `enc.free()`. -/
theorem handle_err_and_free (h : HandlerM) (rec : Record) (attrs : List Attr)
    (write : Buffer → Option (List Char)) :
    (handle h rec attrs write).err = write ((handle h rec attrs write).line)
    ∧ ((handle h rec attrs write).encoderFreed = true
        ↔ write ((handle h rec attrs write).line) = none)
    ∧ (write ((handle h rec attrs write).line) = none
        → (handle h rec attrs write).enc = {}) := by
  have hs := handleWrite_spec (handleCore h rec attrs).1 (handleCore h rec attrs).2 write
  have he : handle h rec attrs write
      = handleWrite (handleCore h rec attrs).1 (handleCore h rec attrs).2 write := rfl
  rw [he, hs.2.1]
  exact ⟨hs.1, hs.2.2.1, hs.2.2.2⟩

/-- Witness for the amended C4 at a concrete handler with a successful
write: no error, and the encoder is freed. -/
theorem handle_err_and_free_witness :
    (handle (handlerFor "%m") { message := "msg".toList } [] okWriter).err = none
    ∧ (handle (handlerFor "%m") { message := "msg".toList } [] okWriter).encoderFreed = true :=
  have hs := handle_err_and_free (handlerFor "%m") { message := "msg".toList } [] okWriter
  ⟨hs.1.trans rfl, hs.2.1.mpr rfl⟩

end ConsoleSlog

namespace ConsoleSlog

/-- A Go slice header over a store of backing arrays: array id, offset,
length and capacity. -/
structure GoSlice where
  arr : Nat
  off : Nat
  len : Nat
  cap : Nat
deriving DecidableEq, Repr

/-- The heap of backing arrays for group-name slices: each array is a list
of strings whose length equals its capacity. -/
abbrev GroupStore := List (List (List Char))

/-- The strings a slice header denotes in a store. -/
def readSlice (st : GroupStore) (s : GoSlice) : List (List Char) :=
  ((st.getD s.arr []).drop s.off).take s.len

/-- Go append capacity growth for small slices: at least the needed length,
and at least double the old capacity. -/
def growCap (needed old : Nat) : Nat := max needed (2 * old)

/-- Go `append(s, v)`: if spare capacity remains, write in place into the
shared backing array; otherwise allocate a fresh array, copy, and append. -/
def sliceAppend (st : GroupStore) (s : GoSlice) (v : List Char) :
    GroupStore × GoSlice :=
  if s.len < s.cap then
    let a := (st : List (List (List Char))).getD s.arr []
    (List.set st s.arr (a.set (s.off + s.len) v),
      { s with len := s.len + 1 })
  else
    let newCap := growCap (s.len + 1) s.cap
    let content := readSlice st s ++ [v]
    ((st : List (List (List Char))) ++ [content ++ List.replicate (newCap - content.length) []],
      { arr := (st : List (List (List Char))).length
        off := 0
        len := s.len + 1
        cap := newCap })

/-- The slice-level state of a handler produced by `WithGroup`: the dotted
group prefix and the `groups` slice header (handler.go `WithGroup` keeps
every other field of the receiver unchanged). -/
structure GHandlerM where
  groupPrefix : List Char
  groups : GoSlice
deriving DecidableEq, Repr

/-- handler.go `WithGroup`: trim the name, extend the dotted prefix, and
build the new handler with `groups: append(h.groups, name)` — note the
absence of `slices.Clip`, so the backing array may stay shared. -/
def withGroupG (st : GroupStore) (h : GHandlerM) (name : List Char) :
    GroupStore × GHandlerM :=
  let name := trimSpace name
  let gp := if h.groupPrefix = [] then name else h.groupPrefix ++ '.' :: name
  let p := sliceAppend st h.groups name
  (p.1, { groupPrefix := gp, groups := p.2 })

def c5H0 : GHandlerM := { groupPrefix := [], groups := { arr := 0, off := 0, len := 0, cap := 0 } }
def c5S1 : GroupStore × GHandlerM := withGroupG [] c5H0 "a".toList
def c5S2 : GroupStore × GHandlerM := withGroupG c5S1.1 c5S1.2 "b".toList
def c5S3 : GroupStore × GHandlerM := withGroupG c5S2.1 c5S2.2 "c".toList
def c5S4 : GroupStore × GHandlerM := withGroupG c5S3.1 c5S3.2 "d".toList
def c5S5 : GroupStore × GHandlerM := withGroupG c5S4.1 c5S3.2 "e".toList

/-- Claim C5 is false of the code: `WithGroup` builds the derived handler
with `append(h.groups, name)` and no `slices.Clip`, so two sibling handlers
derived from the same parent can share the parent's backing array. After
`WithGroup("a").WithGroup("b").WithGroup("c")` the groups slice has spare
capacity; deriving sibling `d` and then sibling `e` from that parent makes
the second derivation overwrite the shared slot in place, and the first
sibling's observable group stack silently changes from a,b,c,d to a,b,c,e
(these stacks are passed to `ReplaceAttr`, so renders diverge). -/
theorem withGroup_alias_mutation :
    readSlice c5S4.1 c5S4.2.groups
        = ["a".toList, "b".toList, "c".toList, "d".toList]
    ∧ readSlice c5S5.1 c5S5.2.groups
        = ["a".toList, "b".toList, "c".toList, "e".toList]
    ∧ readSlice c5S5.1 c5S4.2.groups
        = ["a".toList, "b".toList, "c".toList, "e".toList] := by
  decide

end ConsoleSlog
